import Mathlib

/-!
Verification development for the webgpt crawler/ingestion core.

The Python sources (src/utils/webcrawler/webcrawler.py,
src/utils/vectordb/vectordb.py, src/utils/postgresdb/postgresdb.py,
src/app/ingest/script.py) are shallowly embedded below.  The HTTP world,
the BeautifulSoup anchor extraction, the HTML cleaner, the markdown
converter and the chunk splitter are external collaborators of the core
and appear as abstract fields of an `Env` record; everything the claims
depend on (URL classification, sitemap scanning, crawl bookkeeping,
exclusion diffing, the per-run commit protocol) is translated from the
source line by line.

Modelling conventions:
- An HTTP GET that raises `requests.RequestException` is `none` in the
  world function; a completed response is `some r`.
- `urlparse` is modelled for absolute http(s) URLs without query strings
  (the only shapes the repository manipulates): the fragment is split off
  first, then scheme/netloc/path.
- `urljoin` is modelled for absolute hrefs; every call site immediately
  guards the result with a scheme+netloc check, so the theorems below do
  not depend on relative-resolution details.
- `splitlines` is modelled as splitting on a newline character.
- The unbounded Python recursion of `recursive_crawl_aux` receives a
  `fuel` parameter; claims are settled for every fuel value.
-/

/-- One HTTP response: status code, Content-Type header, body text, and
the `href` values BeautifulSoup would extract from the body. -/
structure Resp where
  status : Nat
  contentType : String
  text : String
  anchors : List String
deriving DecidableEq, Repr

/-- The external world of the run: raw HTTP, the HTML cleaner, the
markdown converter, the splitter composition, and the outcome switches of
the embedding gateway, the vector store and the ledger store. -/
structure Env where
  http : String → Option Resp
  cleanHtml : List String → String → String
  toMarkdown : String → String
  splitChunks : String → List String
  embedOk : String → Bool
  upsertOk : Bool
  insertOk : Bool
  ledgerFetchOk : Bool

namespace PyStr

/-!
Python string primitives, implemented by structural recursion over
`List Char` so that every concrete run of the model reduces inside the
kernel.  (The corresponding `String` library functions are implemented on
byte positions with well-founded recursion and do not reduce.)
-/

/-- `str.lower`. -/
def lower (s : String) : String :=
  String.mk (s.data.map Char.toLower)

/-- `str.strip()`. -/
def strip (s : String) : String :=
  String.mk
    (((s.data.dropWhile Char.isWhitespace).reverse.dropWhile
      Char.isWhitespace).reverse)

/-- `s.startswith(p)`. -/
def starts (s p : String) : Bool :=
  p.data.isPrefixOf s.data

/-- `s.endswith(p)`. -/
def ends (s p : String) : Bool :=
  p.data.reverse.isPrefixOf s.data.reverse

/-- `s.split(sep)` for a one-character separator, on char lists. -/
def splitChar (sep : Char) : List Char → List (List Char)
  | [] => [[]]
  | c :: rest =>
    let r := splitChar sep rest
    if c = sep then [] :: r
    else
      match r with
      | [] => [[c]]
      | h :: t => (c :: h) :: t

/-- `s.split(sep, 1)`: the pieces before and after the first occurrence
of a one-character separator, when it occurs. -/
def break1 (sep : Char) : List Char → Option (List Char × List Char)
  | [] => none
  | c :: rest =>
    if c = sep then some ([], rest)
    else (break1 sep rest).map (fun p => (c :: p.1, p.2))

/-- The pieces before and after the first occurrence of `://`, when it
occurs — the split `urlparse` performs between scheme and the rest. -/
def break_scheme : List Char → Option (List Char × List Char)
  | ':' :: '/' :: '/' :: tail => some ([], tail)
  | c :: rest => (break_scheme rest).map (fun p => (c :: p.1, p.2))
  | [] => none

/-- `s[n:]` (character-based). -/
def dropN (s : String) (n : Nat) : String :=
  String.mk (s.data.drop n)

/-- `s[:-n]` (character-based). -/
def dropRightN (s : String) (n : Nat) : String :=
  String.mk (s.data.take (s.data.length - n))

end PyStr

/-- Python `s.split('#', 1)[0]`: everything before the first `#`. -/
def stripFragment (s : String) : String :=
  String.mk (s.data.takeWhile (fun c => c ≠ '#'))

/-- Python `s.rstrip('/')`. -/
def rstrip_slash (s : String) : String :=
  String.mk ((s.data.reverse.dropWhile (fun c => c = '/')).reverse)

/-- Python `needle in hay` on strings. -/
def str_contains (hay needle : String) : Bool :=
  decide (List.IsInfix needle.data hay.data)

/-- `urlparse(url).scheme` (fragment split off first, scheme lowercased),
restricted to the URL shapes the repository handles. -/
def urlScheme (s : String) : String :=
  match PyStr.break_scheme (stripFragment s).data with
  | none => ""
  | some p => PyStr.lower (String.mk p.1)

/-- Netloc of a fragment-free string: the segment between `://` and the
first `/` of what follows. -/
def urlNetlocCore (s : String) : String :=
  match PyStr.break_scheme s.data with
  | none => ""
  | some p => String.mk (p.2.takeWhile (fun c => c ≠ '/'))

/-- `urlparse(url).netloc`: the fragment is split off first. -/
def urlNetloc (s : String) : String :=
  urlNetlocCore (stripFragment s)

/-- Path of a fragment-free string. -/
def urlPathCore (s : String) : String :=
  match PyStr.break_scheme s.data with
  | none => s
  | some p =>
    match PyStr.break1 '/' p.2 with
    | none => ""
    | some q => String.mk ('/' :: q.2)

/-- `urlparse(url).path`. -/
def urlPath (s : String) : String :=
  urlPathCore (stripFragment s)

/-- `urllib.parse.urljoin`, modelled for absolute hrefs (every call site
guards the result with a scheme and netloc check). -/
def urljoin (base href : String) : String :=
  if (PyStr.break_scheme href.data).isSome then href
  else rstrip_slash base ++ "/" ++ href

/-- `str.splitlines`, modelled as splitting on newline characters. -/
def split_lines (s : String) : List String :=
  (PyStr.splitChar '\n' s.data).map String.mk

namespace WebCrawler

/-- The module-level `NON_HTML_EXTENSIONS` set of webcrawler.py. -/
def NON_HTML_EXTENSIONS : List String :=
  [ ".pdf", ".png", ".jpg", ".jpeg", ".gif", ".svg", ".webp", ".ico", ".bmp", ".tiff",
    ".mp3", ".mp4", ".wav", ".avi", ".mov", ".webm", ".ogg", ".flac",
    ".zip", ".tar", ".gz", ".rar", ".7z",
    ".doc", ".docx", ".xls", ".xlsx", ".ppt", ".pptx", ".odt", ".ods",
    ".css", ".js", ".json", ".xml", ".rss", ".atom",
    ".woff", ".woff2", ".ttf", ".eot", ".otf",
    ".exe", ".dmg", ".apk", ".msi" ]

/-- `WebCrawler.is_html_url`: a path ending in `/` or whose last segment
has no dot is HTML-like; otherwise reject exactly the denylisted
extensions. -/
def is_html_url (url : String) : Bool :=
  let path := PyStr.lower (urlPath url)
  if PyStr.ends path "/"
      || !(((PyStr.splitChar '/' path.data).getLastD []).contains '.') then
    true
  else if NON_HTML_EXTENSIONS.any (fun ext => PyStr.ends path ext) then
    false
  else
    true

/-- `WebCrawler.is_html_response`: `'text/html' in content_type.lower()`. -/
def is_html_response (r : Resp) : Bool :=
  str_contains (PyStr.lower r.contentType) "text/html"

/-- `WebCrawler.fetch_html`: syntactic filter, GET, status-200 filter,
Content-Type filter; every rejection is `none`, never an error. -/
def fetch_html (env : Env) (url : String) : Option Resp :=
  if !(is_html_url url) then none
  else
    match env.http url with
    | none => none
    | some r =>
      if r.status ≠ 200 then none
      else if !(is_html_response r) then none
      else some r

/-- `WebCrawler.get_sitemap`: fetch `{url.rstrip('/')}/robots.txt`
(`raise_for_status` turns any 4xx/5xx into the exception path), then
collect the values of `sitemap:`-prefixed lines. -/
def get_sitemap (env : Env) (url : String) : Option (List String) :=
  match env.http (rstrip_slash url ++ "/robots.txt") with
  | none => none
  | some r =>
    if 400 ≤ r.status then none
    else
      some ((split_lines r.text).filterMap (fun l =>
        let line := PyStr.strip l
        if PyStr.starts (PyStr.lower line) "sitemap:" then
          some (PyStr.strip (match PyStr.break1 ':' line.data with
            | none => ""
            | some p => String.mk p.2))
        else none))

/-- The `<loc>` payload of a trimmed sitemap line: `line[5:-6]`. -/
def sitemap_link (l : String) : String :=
  PyStr.dropRightN (PyStr.dropN (PyStr.strip l) 5) 6

/-- A sitemap line that `get_internal_links_using_sitemap` would keep:
trimmed, framed by `<loc>`/`</loc>`, same-prefix with the base URL and
HTML-like. -/
def qualifying_line (base_url : String) (l : String) : Bool :=
  let line := PyStr.strip l
  PyStr.starts line "<loc>" && PyStr.ends line "</loc>" &&
    PyStr.starts (sitemap_link l) base_url && is_html_url (sitemap_link l)

/-- The `limit is not None and len(all_links) >= limit` break guard. -/
def limit_reached (limit : Option Nat) (acc : List String) : Bool :=
  match limit with
  | none => false
  | some n => decide (n ≤ acc.length)

/-- The inner line loop of `get_internal_links_using_sitemap`: check the
limit before each line, keep qualifying `<loc>` payloads. -/
def scan_lines (base_url : String) (limit : Option Nat) :
    List String → List String → List String
  | [], acc => acc
  | l :: rest, acc =>
    if limit_reached limit acc then acc
    else if qualifying_line base_url l then
      scan_lines base_url limit rest (acc ++ [sitemap_link l])
    else
      scan_lines base_url limit rest acc

/-- The outer sitemap loop: each sitemap is fetched (`raise_for_status`),
and any fetch failure aborts the whole function with the exception
result, discarding links already collected. -/
def sitemap_collect (env : Env) (base_url : String) (limit : Option Nat) :
    List String → List String → Option (List String)
  | [], acc => some acc
  | sm :: rest, acc =>
    match env.http sm with
    | none => none
    | some r =>
      if 400 ≤ r.status then none
      else sitemap_collect env base_url limit rest
        (scan_lines base_url limit (split_lines r.text) acc)

/-- `WebCrawler.get_internal_links_using_sitemap`: absent when robots.txt
yields no sitemap URLs (or its fetch fails), otherwise the collected
links — possibly the empty list. -/
def get_internal_links_using_sitemap (env : Env) (base_url : String)
    (limit : Option Nat) : Option (List String) :=
  match get_sitemap env base_url with
  | none => none
  | some sitemap_urls =>
    if sitemap_urls.isEmpty then none
    else sitemap_collect env base_url limit sitemap_urls []

/-- Count of qualifying lines in one sitemap body. -/
def qualifying_count (base_url : String) (lines : List String) : Nat :=
  (lines.filter (qualifying_line base_url)).length

/-- Total count of qualifying entries across a sitemap list (0 for a
sitemap whose fetch fails). -/
def sitemap_total (env : Env) (base_url : String) (sms : List String) : Nat :=
  (sms.map (fun sm =>
    match env.http sm with
    | some r => qualifying_count base_url (split_lines r.text)
    | none => 0)).sum

/-- Every qualifying entry of every sitemap, in order. -/
def sitemap_full (env : Env) (base_url : String) (sms : List String) : List String :=
  sms.flatMap (fun sm =>
    match env.http sm with
    | some r => ((split_lines r.text).filter (qualifying_line base_url)).map sitemap_link
    | none => [])

/-- Crawl bookkeeping: the instance field `internal_links`, plus a ghost
trace `fetched` of every URL that was fetched and expanded (the base page
in `recursive_crawl` and each successful `fetch_html` in
`recursive_crawl_aux`). -/
structure CrawlState where
  internal_links : List String
  fetched : List String
deriving DecidableEq, Repr

/-- The `depth is not None and depth >= self.limit` early return of
`recursive_crawl_aux`.  (In Python a non-`None` depth with a `None`
limit would raise; that combination is unreachable from
`recursive_crawl`, and the model treats it as not exceeded.) -/
def depth_exceeded (depth limit : Option Nat) : Bool :=
  match depth, limit with
  | some d, some l => decide (l ≤ d)
  | _, _ => false

/-- The anchor loop of `recursive_crawl_aux`: absolutize, filter scheme
and netloc, strip the fragment, append unseen HTML-like links and recurse
on each through `auxf` (the aux call one fuel level down), mutating the
loop-local `depth` exactly as the Python does. -/
def crawl_page_links (base_url : String)
    (auxf : String → Option Nat → CrawlState → CrawlState) :
    List String → Option Nat → CrawlState → CrawlState
  | [], _, st => st
  | href :: rest, depth, st =>
    if href = "" then crawl_page_links base_url auxf rest depth st
    else
      let abs0 := urljoin base_url href
      if !(urlScheme abs0 == "http" || urlScheme abs0 == "https") then
        crawl_page_links base_url auxf rest depth st
      else if !(urlNetloc abs0 == urlNetloc base_url) then
        crawl_page_links base_url auxf rest depth st
      else
        let abs_link := stripFragment abs0
        if is_html_url abs_link && !(st.internal_links.contains abs_link) then
          let st1 : CrawlState :=
            { st with internal_links := st.internal_links ++ [abs_link] }
          let depth1 := depth.map (· + 1)
          let st2 := auxf abs_link (depth1.map (· + 1)) st1
          crawl_page_links base_url auxf rest depth1 st2
        else
          crawl_page_links base_url auxf rest depth st

/-- `WebCrawler.recursive_crawl_aux`: depth guard, scheme/netloc guard,
HTML-likelihood guard, fetch, then the anchor loop.  `fuel` bounds the
recursion depth of the model; the Python recursion is unbounded. -/
def recursive_crawl_aux (env : Env) (base_url : String) (limit : Option Nat) :
    Nat → String → Option Nat → CrawlState → CrawlState
  | 0, _, _, st => st
  | fuel + 1, url, depth, st =>
    if depth_exceeded depth limit then st
    else if !(urlScheme url == "http" || urlScheme url == "https")
        || !(urlNetloc url == urlNetloc base_url) then st
    else if !(is_html_url url) then st
    else
      match fetch_html env url with
      | none => st
      | some r =>
        crawl_page_links base_url (recursive_crawl_aux env base_url limit fuel)
          r.anchors depth { st with fetched := st.fetched ++ [url] }

/-- The seed loop of `recursive_crawl`: same-origin anchors of the base
page, with the break once `limit` seeds are collected.  Seeds are not
fragment-stripped (faithful to the source). -/
def seed_loop (base_url : String) (limit : Option Nat) :
    List String → List String → List String
  | [], acc => acc
  | href :: rest, acc =>
    if href = "" then seed_loop base_url limit rest acc
    else
      let abs_url := urljoin base_url href
      if (urlScheme abs_url == "http" || urlScheme abs_url == "https")
          && urlNetloc abs_url == urlNetloc base_url then
        let acc1 :=
          if is_html_url abs_url && !(acc.contains abs_url) then acc ++ [abs_url]
          else acc
        if limit_reached limit acc1 then acc1
        else seed_loop base_url limit rest acc1
      else seed_loop base_url limit rest acc

/-- The `for link in list(self.internal_links)` loop of
`recursive_crawl`: aux is called on each seed with `depth=limit`. -/
def crawl_seed_pages (auxf : String → Option Nat → CrawlState → CrawlState)
    (limit : Option Nat) : List String → CrawlState → CrawlState
  | [], st => st
  | l :: rest, st => crawl_seed_pages auxf limit rest (auxf l limit st)

/-- `WebCrawler.recursive_crawl`: reset state, fetch the base page
(failure leaves the reset state), collect seeds, expand each seed. -/
def recursive_crawl (env : Env) (base_url : String) (limit : Option Nat)
    (fuel : Nat) : CrawlState :=
  match fetch_html env base_url with
  | none => { internal_links := [], fetched := [] }
  | some r =>
    let seeds := seed_loop base_url limit r.anchors []
    crawl_seed_pages (recursive_crawl_aux env base_url limit fuel) limit seeds
      { internal_links := seeds, fetched := [base_url] }

/-- Python `l[:limit]` for a possibly-`None` limit. -/
def list_slice (limit : Option Nat) (l : List String) : List String :=
  match limit with
  | none => l
  | some n => l.take n

/-- `WebCrawler.get_internal_links`: prefer the sitemap result (returned
untruncated); fall back to the recursive crawl, sliced to `limit`, only
when the sitemap result is `None`. -/
def get_internal_links (env : Env) (base_url : String) (limit : Option Nat)
    (fuel : Nat) : List String :=
  match get_internal_links_using_sitemap env base_url limit with
  | some links => links
  | none => list_slice limit (recursive_crawl env base_url limit fuel).internal_links

/-- One fetched page handed to the ingester. -/
structure Page where
  html : String
  url : String
deriving DecidableEq, Repr

/-- `WebCrawler.get_website_content`: discover links, skip links matched
by the `exclude_pages` substrings, fetch and clean the rest; absent only
when zero links were discovered. -/
def get_website_content (env : Env) (url : String) (exclude_tags : List String)
    (limit : Option Nat) (exclude_pages : List String) (fuel : Nat) :
    Option (List Page) :=
  let links := get_internal_links env url limit fuel
  if links.isEmpty then none
  else
    some (links.filterMap (fun link =>
      if exclude_pages.any (fun e => str_contains link e) then none
      else
        match fetch_html env link with
        | none => none
        | some r => some { html := env.cleanHtml exclude_tags r.text, url := link }))

end WebCrawler

/-- One `EmbeddedMetadata` ledger row, restricted to the fields the
claims constrain (the per-row UUID and the two timestamps are opaque to
every property below). -/
structure LedgerRow where
  base_url : String
  source_url : String
  number_of_chunks : Nat
  page_length : Nat
deriving DecidableEq, Repr

/-- One vector-store record (`Data`), restricted likewise: the fresh
UUID and the embedding vector ride along opaquely in the source. -/
structure Record where
  source_url : String
  text : String
  chunk_length : Nat
deriving DecidableEq, Repr

namespace PostgresDB

/-- `PostgresDB.insert`: one session-scoped transaction — commit appends
every row, any failure rolls the batch back; the `finally: return retval`
makes the result a plain boolean in both cases. -/
def insert (ledger rows : List LedgerRow) (ok : Bool) : Bool × List LedgerRow :=
  if ok then (true, ledger ++ rows) else (false, ledger)

end PostgresDB

namespace VectorDB

/-- `VectorDB.upsert_vectors`: a confirmation dict (modelled by its
`upsert_count`) on success; `False` (modelled `none`) when the collection
is missing or the client raises — the function itself never raises. -/
def upsert_vectors (ok : Bool) (data : List Record) : Option Nat :=
  if ok then some data.length else none

end VectorDB

namespace Ingest

/-- One chunked page as produced by `convert_site_to_chunks`: the split
chunk texts plus the page metadata the ledger row is built from. -/
structure ChunkedPage where
  splits : List String
  source_url : String
  page_length : Nat
deriving DecidableEq, Repr

/-- The `exclude_tags` list `ingest_site`'s crawl uses. -/
def default_exclude_tags : List String :=
  ["a", "img", "style", "script", "nav", "form", "header", "head"]

/-- `Ingest.convert_site_to_chunks`: crawl, markdown, split; absent when
the crawl was absent or returned no pages. -/
def convert_site_to_chunks (env : Env) (url : String) (max_pages : Option Nat)
    (exclude_pages : List String) (fuel : Nat) : Option (List ChunkedPage) :=
  match WebCrawler.get_website_content env url default_exclude_tags max_pages
      exclude_pages fuel with
  | none => none
  | some pages =>
    if pages.isEmpty then none
    else
      some (pages.map (fun p =>
        { splits := env.splitChunks (env.toMarkdown p.html)
          source_url := p.url
          page_length := p.html.length }))

/-- `PostgresDB.fetch_all` with an `EmbeddedMetadata(base_url=url)`
filter: the matching rows, or `[]` when the query raises (it catches all
exceptions and returns the empty accumulator). -/
def fetch_all (ledger : List LedgerRow) (ok : Bool) (base_url : String) :
    List LedgerRow :=
  if ok then ledger.filter (fun r => r.base_url == base_url) else []

/-- `Ingest.get_ingested_urls`: the `source_url`s of the fetched rows
(`if retval:` then the comprehension, which is also the identity on the
empty result). -/
def get_ingested_urls (env : Env) (ledger : List LedgerRow) (url : String) :
    List String :=
  (fetch_all ledger env.ledgerFetchOk url).map (fun r => r.source_url)

/-- The records one page contributes to `data`: one per chunk, guarded by
the `source_url not in ingested_metadata` check. -/
def page_records (ingested : List String) (p : ChunkedPage) : List Record :=
  if ingested.contains p.source_url then []
  else p.splits.map (fun t => { source_url := p.source_url, text := t, chunk_length := t.length })

/-- The `insert_metadata` row one page contributes. -/
def page_row (url : String) (p : ChunkedPage) : LedgerRow :=
  { base_url := url, source_url := p.source_url
    number_of_chunks := p.splits.length, page_length := p.page_length }

/-- The `for page in chunked_site` loop inside the single `try`: each
page is embedded (one batched call), its records and its ledger row are
accumulated; the first embedding failure raises out of the loop, keeping
what was accumulated before it and abandoning every later page.  The
third component records whether the exception path was taken. -/
def process_pages (env : Env) (url : String) (ingested : List String) :
    List ChunkedPage → List Record × List LedgerRow × Bool
  | [] => ([], [], false)
  | p :: rest =>
    if env.embedOk p.source_url then
      let out := process_pages env url ingested rest
      (page_records ingested p ++ out.1, page_row url p :: out.2.1, out.2.2)
    else
      ([], [], true)

/-- The observable outcome of one `ingest_site` run: the returned value
(`none` is the failure surfaced as a 500), the payload of the single
batched upsert when one was issued, whether the ledger insert was
reached, and the ledger after the run. -/
structure RunOut where
  result : Option (String × Nat × Nat)
  upsertPayload : Option (List Record)
  insertAttempted : Bool
  finalLedger : List LedgerRow
deriving DecidableEq, Repr

/-- `Ingest.ingest_site`: diff against the ledger, chunk, short-circuit
to the zero summary when nothing is left, else embed page by page, upsert
once, and only after a confirmed upsert write the ledger rows; a falsy
upsert result or a non-`True` insert status yields `None`. -/
def ingest_site (env : Env) (ledger : List LedgerRow) (url : String)
    (max_pages : Option Nat) (fuel : Nat) : RunOut :=
  let ingested := get_ingested_urls env ledger url
  match convert_site_to_chunks env url max_pages ingested fuel with
  | none =>
    { result := some (url, 0, 0), upsertPayload := none
      insertAttempted := false, finalLedger := ledger }
  | some chunked =>
    if chunked.isEmpty then
      { result := some (url, 0, 0), upsertPayload := none
        insertAttempted := false, finalLedger := ledger }
    else
      let out := process_pages env url ingested chunked
      let data := out.1
      let rows := out.2.1
      match VectorDB.upsert_vectors env.upsertOk data with
      | none =>
        { result := none, upsertPayload := some data
          insertAttempted := false, finalLedger := ledger }
      | some _ =>
        let ins := PostgresDB.insert ledger rows env.insertOk
        if ins.1 then
          { result := some (url, chunked.length, data.length)
            upsertPayload := some data, insertAttempted := true
            finalLedger := ins.2 }
        else
          { result := none, upsertPayload := some data
            insertAttempted := true, finalLedger := ins.2 }

/-- The HTTP boundary's view of a run. -/
inductive ApiResponse where
  | success (info : String × Nat × Nat)
  | error (code : Nat)
deriving DecidableEq, Repr

/-- `ingest_site_endpoint`: `max_pages` defaults to `None` when omitted
and is passed through unchanged; a `None` run result becomes a 500. -/
def ingest_site_endpoint (env : Env) (ledger : List LedgerRow) (url : String)
    (fuel : Nat) (max_pages : Option Nat := none) : ApiResponse :=
  match (ingest_site env ledger url max_pages fuel).result with
  | some info => .success info
  | none => .error 500

end Ingest

/-! Concrete worlds used by the counterexamples and witnesses. -/

/-- A three-page site reached through a sitemap; the embedding gateway
fails exactly on page 2. -/
def env3 : Env where
  http := fun u =>
    if u == "http://x.com/robots.txt" then
      some ⟨200, "text/plain", "Sitemap: http://x.com/sm.xml", []⟩
    else if u == "http://x.com/sm.xml" then
      some ⟨200, "text/xml",
        "<loc>http://x.com/p1/</loc>\n<loc>http://x.com/p2/</loc>\n<loc>http://x.com/p3/</loc>", []⟩
    else if u == "http://x.com/p1/" then some ⟨200, "text/html", "t1", []⟩
    else if u == "http://x.com/p2/" then some ⟨200, "text/html", "t2", []⟩
    else if u == "http://x.com/p3/" then some ⟨200, "text/html", "t3", []⟩
    else none
  cleanHtml := fun _ s => s
  toMarkdown := fun s => s
  splitChunks := fun s => [s]
  embedOk := fun u => !(u == "http://x.com/p2/")
  upsertOk := true
  insertOk := true
  ledgerFetchOk := true

/-- The same site with a healthy gateway but a vector store that returns
a falsy upsert result. -/
def env1 : Env :=
  { env3 with embedOk := fun _ => true, upsertOk := false }

/-- The same site with a confirmed upsert but a failing ledger insert. -/
def env4 : Env :=
  { env3 with embedOk := fun _ => true, insertOk := false }

/-- The same site with every collaborator healthy. -/
def env2 : Env :=
  { env3 with embedOk := fun _ => true }

/-- A world where every request fails: no robots.txt, unreachable seed. -/
def env6 : Env :=
  { env3 with http := fun _ => none }

/-- World of `env5`: a listed sitemap whose only entry is out-of-origin,
over a site whose base page does link to a same-origin page. -/
def env5http (u : String) : Option Resp :=
  if u == "http://x.com/robots.txt" then
    some ⟨200, "text/plain", "Sitemap: http://x.com/sm.xml", []⟩
  else if u == "http://x.com/sm.xml" then
    some ⟨200, "text/xml", "<loc>http://other.com/a</loc>", []⟩
  else if u == "http://x.com" then
    some ⟨200, "text/html", "hello", ["http://x.com/b/"]⟩
  else none

/-- Sitemap present but with no qualifying entry; crawlable base page. -/
def env5 : Env :=
  { env3 with http := env5http }

/-- World of `env8`: a one-page site whose base page links to itself. -/
def env8http (u : String) : Option Resp :=
  if u == "http://x.com/" then
    some ⟨200, "text/html", "self", ["http://x.com/"]⟩
  else none

/-- A one-page site whose base page links to itself. -/
def env8 : Env :=
  { env3 with http := env8http }

/-- World of `env9`: one HTML-like URL with a 201 text/html response. -/
def env9http (u : String) : Option Resp :=
  if u == "http://x.com/a/" then some ⟨201, "text/html", "created", []⟩
  else none

/-- A world answering one HTML-like URL with a 201 text/html response. -/
def env9 : Env :=
  { env3 with http := env9http }

/-- World of `env7`: a sitemap with two qualifying entries, one non-HTML
entry and one out-of-origin entry. -/
def env7http (u : String) : Option Resp :=
  if u == "http://x.com/robots.txt" then
    some ⟨200, "text/plain", "Sitemap: http://x.com/sm.xml", []⟩
  else if u == "http://x.com/sm.xml" then
    some ⟨200, "text/xml",
      "<loc>http://x.com/p1/</loc>\n<loc>http://x.com/a.pdf</loc>\n<loc>http://other.com/b/</loc>\n<loc>http://x.com/p2/</loc>", []⟩
  else none

/-- A sitemap fixture with qualifying, non-HTML and out-of-origin
entries. -/
def env7 : Env :=
  { env3 with http := env7http }

/-- The run invariant of the recursive fallback crawl: every collected
link shares the base URL's netloc, the collected list is duplicate-free,
and every fetched-and-expanded URL shares the base URL's netloc. -/
def CrawlInv (base_url : String) (st : WebCrawler.CrawlState) : Prop :=
  (∀ u ∈ st.internal_links, urlNetloc u = urlNetloc base_url) ∧
  st.internal_links.Nodup ∧
  (∀ u ∈ st.fetched, urlNetloc u = urlNetloc base_url)

/-! Helper lemmas. -/

theorem takeWhile_takeWhile_self {α : Type} (p : α → Bool) (l : List α) :
    (l.takeWhile p).takeWhile p = l.takeWhile p := by
  induction l with
  | nil => rfl
  | cons a t ih =>
    by_cases h : p a
    · simp [List.takeWhile, h, ih]
    · simp [List.takeWhile, h]

theorem stripFragment_idem (s : String) :
    stripFragment (stripFragment s) = stripFragment s := by
  simp [stripFragment, takeWhile_takeWhile_self]

theorem urlNetloc_stripFragment (s : String) :
    urlNetloc (stripFragment s) = urlNetloc s := by
  simp [urlNetloc, stripFragment_idem]

theorem str_contains_self (s : String) : str_contains s s = true := by
  simp [str_contains, List.infix_refl]

theorem nodup_append_one {α : Type} (l : List α) (a : α)
    (h : l.Nodup) (ha : a ∉ l) : (l ++ [a]).Nodup := by
  simpa [List.nodup_append] using ⟨h, ha⟩

theorem crawl_page_links_inv (base_url : String)
    (auxf : String → Option Nat → WebCrawler.CrawlState → WebCrawler.CrawlState)
    (haux : ∀ u d st, CrawlInv base_url st → CrawlInv base_url (auxf u d st)) :
    ∀ links depth st, CrawlInv base_url st →
      CrawlInv base_url (WebCrawler.crawl_page_links base_url auxf links depth st) := by
  intro links
  induction links with
  | nil => intro depth st h; simpa [WebCrawler.crawl_page_links] using h
  | cons href rest ih =>
    intro depth st h
    simp only [WebCrawler.crawl_page_links]
    split
    · exact ih _ _ h
    · split
      · exact ih _ _ h
      · split
        · exact ih _ _ h
        · split
          · rename_i hscheme hnetloc hadd
            apply ih
            apply haux
            have hnet : urlNetloc (urljoin base_url href) = urlNetloc base_url := by
              simpa using hnetloc
            have hmem : stripFragment (urljoin base_url href) ∉ st.internal_links := by
              simp only [Bool.and_eq_true, Bool.not_eq_true'] at hadd
              simpa using hadd.2
            refine ⟨?_, ?_, h.2.2⟩
            · intro u hu
              rcases List.mem_append.1 hu with hu | hu
              · exact h.1 u hu
              · rcases List.mem_singleton.1 hu with rfl
                rw [urlNetloc_stripFragment]
                exact hnet
            · exact nodup_append_one _ _ h.2.1 hmem
          · exact ih _ _ h

theorem seed_loop_props (base_url : String) (limit : Option Nat) :
    ∀ hrefs acc, (∀ u ∈ acc, urlNetloc u = urlNetloc base_url) → acc.Nodup →
      (∀ u ∈ WebCrawler.seed_loop base_url limit hrefs acc,
          urlNetloc u = urlNetloc base_url) ∧
        (WebCrawler.seed_loop base_url limit hrefs acc).Nodup := by
  intro hrefs
  induction hrefs with
  | nil => intro acc h1 h2; simpa [WebCrawler.seed_loop] using ⟨h1, h2⟩
  | cons href rest ih =>
    intro acc h1 h2
    simp only [WebCrawler.seed_loop]
    split
    · exact ih acc h1 h2
    · split
      · rename_i hne hok
        have hnet : urlNetloc (urljoin base_url href) = urlNetloc base_url := by
          simp only [Bool.and_eq_true, Bool.or_eq_true, beq_iff_eq] at hok
          exact hok.2
        split
        · rename_i hnew
          have hx : (∀ u ∈ acc ++ [urljoin base_url href],
                urlNetloc u = urlNetloc base_url) ∧
              (acc ++ [urljoin base_url href]).Nodup := by
            constructor
            · intro u hu
              rcases List.mem_append.1 hu with hu | hu
              · exact h1 u hu
              · rcases List.mem_singleton.1 hu with rfl; exact hnet
            · refine nodup_append_one _ _ h2 ?_
              simp only [Bool.and_eq_true, Bool.not_eq_true'] at hnew
              simpa using hnew.2
          split
          · exact hx
          · exact ih _ hx.1 hx.2
        · split
          · exact ⟨h1, h2⟩
          · exact ih _ h1 h2
      · exact ih acc h1 h2

theorem crawl_seed_pages_inv (base_url : String)
    (auxf : String → Option Nat → WebCrawler.CrawlState → WebCrawler.CrawlState)
    (haux : ∀ u d st, CrawlInv base_url st → CrawlInv base_url (auxf u d st))
    (limit : Option Nat) :
    ∀ seeds st, CrawlInv base_url st →
      CrawlInv base_url (WebCrawler.crawl_seed_pages auxf limit seeds st) := by
  intro seeds
  induction seeds with
  | nil => intro st h; simpa [WebCrawler.crawl_seed_pages] using h
  | cons s rest ih =>
    intro st h
    simp only [WebCrawler.crawl_seed_pages]
    exact ih _ (haux _ _ _ h)

theorem recursive_crawl_aux_inv (env : Env) (base_url : String)
    (limit : Option Nat) :
    ∀ fuel url depth st, CrawlInv base_url st →
      CrawlInv base_url
        (WebCrawler.recursive_crawl_aux env base_url limit fuel url depth st) := by
  intro fuel
  induction fuel with
  | zero => intro url depth st h; simpa [WebCrawler.recursive_crawl_aux] using h
  | succ n ih =>
    intro url depth st h
    simp only [WebCrawler.recursive_crawl_aux]
    split
    · exact h
    · split
      · exact h
      · split
        · exact h
        · rename_i hdepth hsn hhtml
          split
          · exact h
          · rename_i r hr
            apply crawl_page_links_inv base_url _ (fun u d st hh => ih u d st hh)
            have hnet : urlNetloc url = urlNetloc base_url := by
              simp only [Bool.or_eq_true, Bool.not_eq_true'] at hsn
              push_neg at hsn
              have h2 := hsn.2
              simp only [ne_eq, Bool.not_eq_false, beq_iff_eq] at h2
              exact h2
            refine ⟨h.1, h.2.1, ?_⟩
            intro u hu
            rcases List.mem_append.1 hu with hu | hu
            · exact h.2.2 u hu
            · rcases List.mem_singleton.1 hu with rfl
              exact hnet

theorem qualifying_line_props (base_url : String) (l : String)
    (h : WebCrawler.qualifying_line base_url l = true) :
    PyStr.starts (WebCrawler.sitemap_link l) base_url = true ∧
      WebCrawler.is_html_url (WebCrawler.sitemap_link l) = true := by
  simp only [WebCrawler.qualifying_line, Bool.and_eq_true] at h
  exact ⟨h.1.2, h.2⟩

theorem scan_lines_length (base_url : String) (k : Nat) :
    ∀ lines acc, acc.length ≤ k →
      (WebCrawler.scan_lines base_url (some k) lines acc).length
        = min (acc.length + WebCrawler.qualifying_count base_url lines) k := by
  intro lines
  induction lines with
  | nil =>
    intro acc h
    simp only [WebCrawler.scan_lines, WebCrawler.qualifying_count, List.filter_nil,
      List.length_nil]
    omega
  | cons l rest ih =>
    intro acc h
    simp only [WebCrawler.scan_lines]
    by_cases hl : WebCrawler.limit_reached (some k) acc = true
    · have hk : k ≤ acc.length := by
        simpa [WebCrawler.limit_reached] using hl
      rw [if_pos hl]
      omega
    · have hk : acc.length < k := by
        simp only [WebCrawler.limit_reached, decide_eq_true_eq] at hl
        omega
      rw [if_neg hl]
      by_cases hq : WebCrawler.qualifying_line base_url l = true
      · have hlen : (acc ++ [WebCrawler.sitemap_link l]).length ≤ k := by
          simp only [List.length_append, List.length_singleton]
          omega
        rw [if_pos hq, ih _ hlen]
        have hqc : WebCrawler.qualifying_count base_url (l :: rest)
            = WebCrawler.qualifying_count base_url rest + 1 := by
          simp [WebCrawler.qualifying_count, List.filter_cons, hq]
        rw [hqc]
        simp only [List.length_append, List.length_singleton]
        omega
      · rw [if_neg hq, ih _ h]
        have hqc : WebCrawler.qualifying_count base_url (l :: rest)
            = WebCrawler.qualifying_count base_url rest := by
          simp [WebCrawler.qualifying_count, List.filter_cons, hq]
        rw [hqc]

set_option maxHeartbeats 1000000 in
theorem scan_lines_mem (base_url : String) (limit : Option Nat) :
    ∀ lines acc x, x ∈ WebCrawler.scan_lines base_url limit lines acc →
      x ∈ acc ∨ (PyStr.starts x base_url = true ∧ WebCrawler.is_html_url x = true) := by
  intro lines
  induction lines with
  | nil => intro acc x hx; simpa [WebCrawler.scan_lines] using Or.inl hx
  | cons l rest ih =>
    intro acc x hx
    simp only [WebCrawler.scan_lines] at hx
    by_cases hl : WebCrawler.limit_reached limit acc = true
    · rw [if_pos hl] at hx; exact Or.inl hx
    · rw [if_neg hl] at hx
      by_cases hq : WebCrawler.qualifying_line base_url l = true
      · rw [if_pos hq] at hx
        rcases ih _ x hx with hx | hx
        · rcases List.mem_append.1 hx with hx | hx
          · exact Or.inl hx
          · have hx2 : x = WebCrawler.sitemap_link l := List.mem_singleton.1 hx
            rw [hx2]
            exact Or.inr (qualifying_line_props base_url l hq)
        · exact Or.inr hx
      · rw [if_neg hq] at hx
        exact ih _ x hx

theorem scan_lines_no_limit (base_url : String) :
    ∀ lines acc, WebCrawler.scan_lines base_url none lines acc
      = acc ++ ((lines.filter (WebCrawler.qualifying_line base_url)).map
          WebCrawler.sitemap_link) := by
  intro lines
  induction lines with
  | nil => intro acc; simp [WebCrawler.scan_lines]
  | cons l rest ih =>
    intro acc
    simp only [WebCrawler.scan_lines, WebCrawler.limit_reached]
    by_cases hq : WebCrawler.qualifying_line base_url l = true
    · rw [if_neg (by simp), if_pos hq, ih]
      simp [List.filter_cons, hq]
    · rw [if_neg (by simp), if_neg hq, ih]
      simp [List.filter_cons, hq]

theorem sitemap_collect_ok (env : Env) (base_url : String) (limit : Option Nat) :
    ∀ sms acc, (∀ sm ∈ sms, ∃ r, env.http sm = some r ∧ r.status < 400) →
      ∃ l, WebCrawler.sitemap_collect env base_url limit sms acc = some l := by
  intro sms
  induction sms with
  | nil => intro acc _; exact ⟨acc, rfl⟩
  | cons sm rest ih =>
    intro acc h
    obtain ⟨r, hr, hst⟩ := h sm (List.mem_cons_self _ _)
    simp only [WebCrawler.sitemap_collect, hr]
    rw [if_neg (by omega)]
    exact ih _ (fun s hs => h s (List.mem_cons_of_mem _ hs))

theorem sitemap_collect_length (env : Env) (base_url : String) (k : Nat) :
    ∀ sms acc, (∀ sm ∈ sms, ∃ r, env.http sm = some r ∧ r.status < 400) →
      acc.length ≤ k →
      ∃ l, WebCrawler.sitemap_collect env base_url (some k) sms acc = some l ∧
        l.length = min (acc.length + WebCrawler.sitemap_total env base_url sms) k ∧
        ∀ x ∈ l, x ∈ acc ∨
          (PyStr.starts x base_url = true ∧ WebCrawler.is_html_url x = true) := by
  intro sms
  induction sms with
  | nil =>
    intro acc _ hle
    refine ⟨acc, rfl, ?_, fun x hx => Or.inl hx⟩
    simp only [WebCrawler.sitemap_total, List.map_nil, List.sum_nil]
    omega
  | cons sm rest ih =>
    intro acc h hle
    obtain ⟨r, hr, hst⟩ := h sm (List.mem_cons_self _ _)
    simp only [WebCrawler.sitemap_collect, hr]
    rw [if_neg (by omega)]
    have hscan := scan_lines_length base_url k (split_lines r.text) acc hle
    have hle2 : (WebCrawler.scan_lines base_url (some k) (split_lines r.text)
        acc).length ≤ k := by omega
    obtain ⟨l, hl, hlen, hmem⟩ :=
      ih _ (fun s hs => h s (List.mem_cons_of_mem _ hs)) hle2
    refine ⟨l, hl, ?_, ?_⟩
    · rw [hlen, hscan]
      simp only [WebCrawler.sitemap_total, List.map_cons, List.sum_cons, hr]
      omega
    · intro x hx
      rcases hmem x hx with hx | hx
      · exact scan_lines_mem base_url (some k) _ _ x hx
      · exact Or.inr hx

theorem sitemap_collect_no_limit (env : Env) (base_url : String) :
    ∀ sms acc, (∀ sm ∈ sms, ∃ r, env.http sm = some r ∧ r.status < 400) →
      WebCrawler.sitemap_collect env base_url none sms acc
        = some (acc ++ WebCrawler.sitemap_full env base_url sms) := by
  intro sms
  induction sms with
  | nil => intro acc _; simp [WebCrawler.sitemap_collect, WebCrawler.sitemap_full]
  | cons sm rest ih =>
    intro acc h
    obtain ⟨r, hr, hst⟩ := h sm (List.mem_cons_self _ _)
    simp only [WebCrawler.sitemap_collect, hr]
    rw [if_neg (by omega), scan_lines_no_limit,
      ih _ (fun s hs => h s (List.mem_cons_of_mem _ hs))]
    simp [WebCrawler.sitemap_full, hr, List.append_assoc]

theorem sitemap_full_length (env : Env) (base_url : String) :
    ∀ sms, (WebCrawler.sitemap_full env base_url sms).length
      = WebCrawler.sitemap_total env base_url sms := by
  intro sms
  induction sms with
  | nil => simp [WebCrawler.sitemap_full, WebCrawler.sitemap_total]
  | cons sm rest ih =>
    simp only [WebCrawler.sitemap_full, WebCrawler.sitemap_total, List.flatMap_cons,
      List.map_cons, List.sum_cons, List.length_append] at *
    cases hr : env.http sm with
    | none => simp [hr, ih]
    | some r => simp [hr, WebCrawler.qualifying_count, ih]

theorem process_pages_all_ok (env : Env) (url : String) (ingested : List String) :
    ∀ pages : List Ingest.ChunkedPage,
      (∀ p ∈ pages, env.embedOk p.source_url = true) →
      Ingest.process_pages env url ingested pages
        = (pages.flatMap (Ingest.page_records ingested),
           pages.map (Ingest.page_row url), false) := by
  intro pages
  induction pages with
  | nil => intro _; simp [Ingest.process_pages]
  | cons p rest ih =>
    intro h
    simp only [Ingest.process_pages, h p (List.mem_cons_self _ _), if_true,
      ih (fun q hq => h q (List.mem_cons_of_mem _ hq)), List.flatMap_cons,
      List.map_cons]

theorem process_pages_abort (env : Env) (url : String) (ingested : List String) :
    ∀ (pre : List Ingest.ChunkedPage) (p : Ingest.ChunkedPage)
      (post : List Ingest.ChunkedPage),
      (∀ q ∈ pre, env.embedOk q.source_url = true) →
      env.embedOk p.source_url = false →
      Ingest.process_pages env url ingested (pre ++ p :: post)
        = (pre.flatMap (Ingest.page_records ingested),
           pre.map (Ingest.page_row url), true) := by
  intro pre
  induction pre with
  | nil =>
    intro p post _ hp
    simp [Ingest.process_pages, hp]
  | cons q rest ih =>
    intro p post hpre hp
    simp only [List.cons_append, Ingest.process_pages,
      hpre q (List.mem_cons_self _ _), if_true, List.flatMap_cons, List.map_cons,
      List.append_eq]
    rw [ih p post (fun q2 hq2 => hpre q2 (List.mem_cons_of_mem _ hq2)) hp]

theorem convert_some (env : Env) (url : String) (max_pages : Option Nat)
    (excl : List String) (fuel : Nat) (chunked : List Ingest.ChunkedPage)
    (h : Ingest.convert_site_to_chunks env url max_pages excl fuel = some chunked) :
    ∃ pages, WebCrawler.get_website_content env url Ingest.default_exclude_tags
        max_pages excl fuel = some pages ∧
      pages.isEmpty = false ∧
      chunked = pages.map (fun p =>
        { splits := env.splitChunks (env.toMarkdown p.html)
          source_url := p.url
          page_length := p.html.length }) := by
  unfold Ingest.convert_site_to_chunks at h
  cases hg : WebCrawler.get_website_content env url Ingest.default_exclude_tags
      max_pages excl fuel with
  | none => rw [hg] at h; cases h
  | some pages =>
    rw [hg] at h
    simp only at h
    by_cases he : pages.isEmpty = true
    · rw [if_pos he] at h; cases h
    · rw [if_neg he] at h
      exact ⟨pages, rfl, by simpa using he, (Option.some_inj.1 h).symm⟩

theorem get_ingested_urls_append (env : Env) (h : env.ledgerFetchOk = true)
    (ledger rows : List LedgerRow) (url : String) :
    Ingest.get_ingested_urls env (ledger ++ rows) url
      = Ingest.get_ingested_urls env ledger url
        ++ (rows.filter (fun r => r.base_url == url)).map (fun r => r.source_url) := by
  simp [Ingest.get_ingested_urls, Ingest.fetch_all, h, List.filter_append]

theorem page_row_filter (url : String) (chunked : List Ingest.ChunkedPage) :
    ((chunked.map (Ingest.page_row url)).filter
        (fun r => r.base_url == url)).map (fun r => r.source_url)
      = chunked.map (fun p => p.source_url) := by
  induction chunked with
  | nil => rfl
  | cons p rest ih => simp [Ingest.page_row, List.filter_cons, ih]

theorem gwc_some (env : Env) (url : String) (tags : List String)
    (mp : Option Nat) (excl : List String) (fuel : Nat) (pages : List WebCrawler.Page)
    (h : WebCrawler.get_website_content env url tags mp excl fuel = some pages) :
    (WebCrawler.get_internal_links env url mp fuel).isEmpty = false ∧
    pages = (WebCrawler.get_internal_links env url mp fuel).filterMap (fun link =>
      if excl.any (fun e => str_contains link e) then none
      else
        match WebCrawler.fetch_html env link with
        | none => none
        | some r => some { html := env.cleanHtml tags r.text, url := link }) := by
  unfold WebCrawler.get_website_content at h
  by_cases he : (WebCrawler.get_internal_links env url mp fuel).isEmpty = true
  · rw [if_pos he] at h; cases h
  · rw [if_neg he] at h
    exact ⟨by simpa using he, (Option.some_inj.1 h).symm⟩

theorem gwc_excluded_all (env : Env) (url : String) (tags : List String)
    (mp : Option Nat) (excl : List String) (fuel : Nat)
    (hlinks : (WebCrawler.get_internal_links env url mp fuel).isEmpty = false)
    (hnone : ∀ link ∈ WebCrawler.get_internal_links env url mp fuel,
      (if excl.any (fun e => str_contains link e) then none
       else
         match WebCrawler.fetch_html env link with
         | none => none
         | some r =>
           some ({ html := env.cleanHtml tags r.text, url := link } : WebCrawler.Page))
        = none) :
    WebCrawler.get_website_content env url tags mp excl fuel = some [] := by
  simp only [WebCrawler.get_website_content]
  rw [if_neg (by simp [hlinks])]
  congr 1
  exact List.filterMap_eq_nil_iff.2 hnone

theorem recursive_crawl_inv (env : Env) (base_url : String) (limit : Option Nat)
    (fuel : Nat) :
    CrawlInv base_url (WebCrawler.recursive_crawl env base_url limit fuel) := by
  simp only [WebCrawler.recursive_crawl]
  split
  · exact ⟨by simp, by simp, by simp⟩
  · rename_i r hr
    apply crawl_seed_pages_inv base_url _
      (fun u d st hh => recursive_crawl_aux_inv env base_url limit fuel u d st hh)
    have hseed := seed_loop_props base_url limit r.anchors [] (by simp) (by simp)
    refine ⟨hseed.1, hseed.2, ?_⟩
    intro u hu
    rcases List.mem_singleton.1 hu with rfl
    rfl

/-! Claim theorems. -/

/-- C1: whenever the vector-store upsert returns a falsy result (the only
failure mode of `upsert_vectors`, which catches its own exceptions), the
run never reaches the ledger insert, leaves the ledger untouched, and —
when the run got as far as issuing the upsert — returns the failure
result `None`. -/
theorem claim_C1 (env : Env) (ledger : List LedgerRow) (url : String)
    (max_pages : Option Nat) (fuel : Nat) (h : env.upsertOk = false) :
    (Ingest.ingest_site env ledger url max_pages fuel).insertAttempted = false ∧
    (Ingest.ingest_site env ledger url max_pages fuel).finalLedger = ledger ∧
    ((Ingest.ingest_site env ledger url max_pages fuel).upsertPayload ≠ none →
      (Ingest.ingest_site env ledger url max_pages fuel).result = none) := by
  cases hc : Ingest.convert_site_to_chunks env url max_pages
      (Ingest.get_ingested_urls env ledger url) fuel with
  | none => simp [Ingest.ingest_site, hc]
  | some chunked =>
    by_cases he : chunked.isEmpty = true
    · simp [Ingest.ingest_site, hc, he]
    · simp [Ingest.ingest_site, hc, he, VectorDB.upsert_vectors, h]

/-- Witness for C1: a concrete three-page run against a store whose
upsert fails; the run had a non-empty upsert payload, returns `None` and
writes no ledger row. -/
theorem claim_C1_witness :
    env1.upsertOk = false ∧
    (Ingest.ingest_site env1 [] "http://x.com" none 5).upsertPayload ≠ none ∧
    ((Ingest.ingest_site env1 [] "http://x.com" none 5).insertAttempted = false ∧
     (Ingest.ingest_site env1 [] "http://x.com" none 5).finalLedger = [] ∧
     ((Ingest.ingest_site env1 [] "http://x.com" none 5).upsertPayload ≠ none →
       (Ingest.ingest_site env1 [] "http://x.com" none 5).result = none)) :=
  ⟨rfl, by decide, claim_C1 env1 [] "http://x.com" none 5 rfl⟩

/-- C3 (counterexample to the claim as stated): in a three-page run where
embedding fails on page 2, the final upsert payload contains page 1's
chunks only — the chunks of page 3 are *not* present, contradicting the
claimed containment of pages after the failing one. -/
theorem claim_C3_counterexample :
    Ingest.convert_site_to_chunks env3 "http://x.com" none
        (Ingest.get_ingested_urls env3 [] "http://x.com") 5
      = some [⟨["t1"], "http://x.com/p1/", 2⟩, ⟨["t2"], "http://x.com/p2/", 2⟩,
              ⟨["t3"], "http://x.com/p3/", 2⟩] ∧
    env3.embedOk "http://x.com/p2/" = false ∧
    (Ingest.ingest_site env3 [] "http://x.com" none 5).upsertPayload
      = some [⟨"http://x.com/p1/", "t1", 2⟩] ∧
    (((Ingest.ingest_site env3 [] "http://x.com" none 5).upsertPayload.getD []).filter
        (fun r => r.source_url == "http://x.com/p3/")).length = 0 := by
  decide

/-- C3 (amended): the `try` wraps the whole page loop, so a fault while
processing page N is caught at the loop boundary: the upsert payload
contains exactly the chunks accumulated from the pages before N; page N
and every page after it are skipped. -/
theorem claim_C3 (env : Env) (ledger : List LedgerRow) (url : String)
    (max_pages : Option Nat) (fuel : Nat) (pre : List Ingest.ChunkedPage)
    (p : Ingest.ChunkedPage) (post : List Ingest.ChunkedPage)
    (hch : Ingest.convert_site_to_chunks env url max_pages
        (Ingest.get_ingested_urls env ledger url) fuel = some (pre ++ p :: post))
    (hpre : ∀ q ∈ pre, env.embedOk q.source_url = true)
    (hp : env.embedOk p.source_url = false) :
    (Ingest.ingest_site env ledger url max_pages fuel).upsertPayload
      = some (pre.flatMap
          (Ingest.page_records (Ingest.get_ingested_urls env ledger url))) := by
  have hne : (pre ++ p :: post).isEmpty = false := by simp
  have hproc := process_pages_abort env url
    (Ingest.get_ingested_urls env ledger url) pre p post hpre hp
  cases hu : env.upsertOk <;> cases hi : env.insertOk <;>
    simp [Ingest.ingest_site, hch, hproc, hne, VectorDB.upsert_vectors,
      PostgresDB.insert, hu, hi]

/-- Witness for C3 (amended) at the concrete three-page run: the payload
is exactly page 1's records. -/
theorem claim_C3_witness :
    (∀ q ∈ [(⟨["t1"], "http://x.com/p1/", 2⟩ : Ingest.ChunkedPage)],
        env3.embedOk q.source_url = true) ∧
    env3.embedOk "http://x.com/p2/" = false ∧
    (Ingest.ingest_site env3 [] "http://x.com" none 5).upsertPayload
      = some ([(⟨["t1"], "http://x.com/p1/", 2⟩ : Ingest.ChunkedPage)].flatMap
          (Ingest.page_records (Ingest.get_ingested_urls env3 [] "http://x.com"))) :=
  ⟨by decide, by decide,
    claim_C3 env3 [] "http://x.com" none 5
      [⟨["t1"], "http://x.com/p1/", 2⟩] ⟨["t2"], "http://x.com/p2/", 2⟩
      [⟨["t3"], "http://x.com/p3/", 2⟩] (by decide) (by decide) (by decide)⟩

/-- C4: when the run reached the ledger insert (hence the upsert was
confirmed) and the insert fails, the run returns the failure result
`None` even though the vectors are already committed, and the ledger is
left exactly as before (rolled back); moreover the modelled
`PostgresDB.insert` is transactional — the whole batch on success, no
row on failure, returning a success boolean. -/
theorem claim_C4 (env : Env) (ledger : List LedgerRow) (url : String)
    (max_pages : Option Nat) (fuel : Nat)
    (h1 : env.insertOk = false)
    (h2 : (Ingest.ingest_site env ledger url max_pages fuel).insertAttempted = true) :
    (Ingest.ingest_site env ledger url max_pages fuel).result = none ∧
    (Ingest.ingest_site env ledger url max_pages fuel).finalLedger = ledger ∧
    (∀ L R : List LedgerRow,
      PostgresDB.insert L R true = (true, L ++ R) ∧
      PostgresDB.insert L R false = (false, L)) := by
  cases hc : Ingest.convert_site_to_chunks env url max_pages
      (Ingest.get_ingested_urls env ledger url) fuel with
  | none =>
    exfalso
    simp [Ingest.ingest_site, hc] at h2
  | some chunked =>
    by_cases he : chunked.isEmpty = true
    · exfalso
      simp [Ingest.ingest_site, hc, he] at h2
    · cases hu : env.upsertOk
      · exfalso
        simp [Ingest.ingest_site, hc, he, hu, VectorDB.upsert_vectors] at h2
      · refine ⟨?_, ?_, fun L R => by simp [PostgresDB.insert]⟩ <;>
          simp [Ingest.ingest_site, hc, he, hu, h1, VectorDB.upsert_vectors,
            PostgresDB.insert]

/-- Witness for C4: the concrete run whose upsert is confirmed but whose
ledger insert fails; the insert was reached and the run returns `None`
with an unchanged ledger. -/
theorem claim_C4_witness :
    env4.insertOk = false ∧
    (Ingest.ingest_site env4 [] "http://x.com" none 5).insertAttempted = true ∧
    ((Ingest.ingest_site env4 [] "http://x.com" none 5).result = none ∧
     (Ingest.ingest_site env4 [] "http://x.com" none 5).finalLedger = [] ∧
     (∀ L R : List LedgerRow,
       PostgresDB.insert L R true = (true, L ++ R) ∧
       PostgresDB.insert L R false = (false, L))) :=
  ⟨rfl, by decide, claim_C4 env4 [] "http://x.com" none 5 rfl (by decide)⟩

/-- C5 (counterexample to the claim as stated): with a robots.txt listing
one sitemap whose only entry is out-of-origin, `get_internal_links_using_sitemap`
returns the *empty list*, not the absent result, so `get_internal_links`
returns `[]` and the recursive-crawl fallback — which would have found a
page — is not taken. -/
theorem claim_C5_counterexample :
    WebCrawler.get_internal_links_using_sitemap env5 "http://x.com" (some 5)
      = some [] ∧
    WebCrawler.get_internal_links env5 "http://x.com" (some 5) 5 = [] ∧
    (WebCrawler.recursive_crawl env5 "http://x.com" (some 5) 5).internal_links
      = ["http://x.com/b/"] := by
  decide

/-- C5 (amended): whenever robots.txt lists at least one sitemap and
every listed sitemap fetch succeeds, the sitemap discovery returns a
present list — possibly empty when no entry qualifies — and
`get_internal_links` returns exactly that list without falling back to
the recursive crawl; the fallback is taken only when the sitemap result
is absent (no sitemap listed, or a robots/sitemap fetch failure). -/
theorem claim_C5 (env : Env) (base_url : String) (limit : Option Nat)
    (fuel : Nat) (sms : List String)
    (h1 : WebCrawler.get_sitemap env base_url = some sms) (h2 : sms ≠ [])
    (h3 : ∀ sm ∈ sms, ∃ r, env.http sm = some r ∧ r.status < 400) :
    ∃ links, WebCrawler.get_internal_links_using_sitemap env base_url limit
        = some links ∧
      WebCrawler.get_internal_links env base_url limit fuel = links := by
  obtain ⟨l, hl⟩ := sitemap_collect_ok env base_url limit sms [] h3
  have hs : WebCrawler.get_internal_links_using_sitemap env base_url limit
      = some l := by
    simp only [WebCrawler.get_internal_links_using_sitemap, h1]
    rw [if_neg (by simpa using h2)]
    exact hl
  exact ⟨l, hs, by simp [WebCrawler.get_internal_links, hs]⟩

/-- Witness for C5 (amended) at the concrete fixture: the sitemap result
is present (the empty list) and is what `get_internal_links` returns. -/
theorem claim_C5_witness :
    WebCrawler.get_sitemap env5 "http://x.com" = some ["http://x.com/sm.xml"] ∧
    (∃ links, WebCrawler.get_internal_links_using_sitemap env5 "http://x.com"
        (some 5) = some links ∧
      WebCrawler.get_internal_links env5 "http://x.com" (some 5) 5 = links) :=
  ⟨by decide,
    claim_C5 env5 "http://x.com" (some 5) 5 ["http://x.com/sm.xml"] (by decide)
      (by decide)
      (by
        intro sm hsm
        rw [List.mem_singleton] at hsm
        subst hsm
        exact ⟨⟨200, "text/xml", "<loc>http://other.com/a</loc>", []⟩, rfl,
          by decide⟩)⟩

/-- C6 (counterexample to the claim as stated): in a world where nothing
is reachable (no robots.txt, unreachable seed), discovery yields no
links, yet the run returns the zero success summary and the endpoint
answers 200 success — not the claimed null/failure. -/
theorem claim_C6_counterexample :
    WebCrawler.get_internal_links env6 "http://x.com" none 5 = [] ∧
    (Ingest.ingest_site env6 [] "http://x.com" none 5).result
      = some ("http://x.com", 0, 0) ∧
    (Ingest.ingest_site env6 [] "http://x.com" none 5).result ≠ none ∧
    Ingest.ingest_site_endpoint env6 [] "http://x.com" 5
      = .success ("http://x.com", 0, 0) := by
  decide

/-- C6 (amended): when the sitemap result is absent and the crawl seed is
unreachable, the run short-circuits through the empty-page-set path: it
reports the zero-page zero-chunk *success* summary (HTTP 200 at the
endpoint), touching neither the vector store nor the ledger — it does not
surface a failure upstream. -/
theorem claim_C6 (env : Env) (ledger : List LedgerRow) (url : String)
    (max_pages : Option Nat) (fuel : Nat)
    (hsm : WebCrawler.get_internal_links_using_sitemap env url max_pages = none)
    (hbase : WebCrawler.fetch_html env url = none) :
    (Ingest.ingest_site env ledger url max_pages fuel).result = some (url, 0, 0) ∧
    (Ingest.ingest_site env ledger url max_pages fuel).upsertPayload = none ∧
    (Ingest.ingest_site env ledger url max_pages fuel).insertAttempted = false ∧
    (Ingest.ingest_site env ledger url max_pages fuel).finalLedger = ledger ∧
    Ingest.ingest_site_endpoint env ledger url fuel max_pages
      = .success (url, 0, 0) := by
  have hlinks : WebCrawler.get_internal_links env url max_pages fuel = [] := by
    simp only [WebCrawler.get_internal_links, hsm, WebCrawler.recursive_crawl, hbase]
    cases max_pages <;> simp [WebCrawler.list_slice]
  have hg : WebCrawler.get_website_content env url Ingest.default_exclude_tags
      max_pages (Ingest.get_ingested_urls env ledger url) fuel = none := by
    simp [WebCrawler.get_website_content, hlinks]
  have hc : Ingest.convert_site_to_chunks env url max_pages
      (Ingest.get_ingested_urls env ledger url) fuel = none := by
    simp [Ingest.convert_site_to_chunks, hg]
  refine ⟨?_, ?_, ?_, ?_, ?_⟩ <;>
    simp [Ingest.ingest_site, Ingest.ingest_site_endpoint, hc]

/-- Witness for C6 (amended) at the all-unreachable world. -/
theorem claim_C6_witness :
    WebCrawler.get_internal_links_using_sitemap env6 "http://x.com" none = none ∧
    WebCrawler.fetch_html env6 "http://x.com" = none ∧
    ((Ingest.ingest_site env6 [] "http://x.com" none 4).result
        = some ("http://x.com", 0, 0) ∧
     (Ingest.ingest_site env6 [] "http://x.com" none 4).upsertPayload = none ∧
     (Ingest.ingest_site env6 [] "http://x.com" none 4).insertAttempted = false ∧
     (Ingest.ingest_site env6 [] "http://x.com" none 4).finalLedger = [] ∧
     Ingest.ingest_site_endpoint env6 [] "http://x.com" 4
        = .success ("http://x.com", 0, 0)) :=
  ⟨by decide, by decide, claim_C6 env6 [] "http://x.com" none 4 (by decide)
    (by decide)⟩

/-- C9 (counterexample to the claim as stated): a 201 response — 2xx,
`text/html`, on an HTML-like URL — is rejected by `fetch_html`, which
tests `status_code != 200`, not "non-2xx". -/
theorem claim_C9_counterexample :
    WebCrawler.is_html_url "http://x.com/a/" = true ∧
    env9.http "http://x.com/a/" = some ⟨201, "text/html", "created", []⟩ ∧
    (200 ≤ 201 ∧ 201 < 300) ∧
    WebCrawler.is_html_response ⟨201, "text/html", "created", []⟩ = true ∧
    WebCrawler.fetch_html env9 "http://x.com/a/" = none := by
  decide

/-- C9 (amended): `fetch_html` returns the response exactly when the URL
is HTML-like, the GET completed, the status is exactly 200, and the
Content-Type contains `text/html`; in every other case — non-HTML-like
URL, request failure or timeout, status other than 200, other
Content-Type — it returns the absent result without raising. -/
theorem claim_C9 (env : Env) (url : String) (r : Resp) :
    WebCrawler.fetch_html env url = some r ↔
      (WebCrawler.is_html_url url = true ∧ env.http url = some r ∧
        r.status = 200 ∧ WebCrawler.is_html_response r = true) := by
  unfold WebCrawler.fetch_html
  by_cases hu : WebCrawler.is_html_url url = true
  · rw [if_neg (by simp [hu])]
    cases hw : env.http url with
    | none =>
      show none = some r ↔ _
      constructor
      · intro h; cases h
      · rintro ⟨_, h1, _, _⟩; cases h1
    | some r2 =>
      show (if r2.status ≠ 200 then none
            else if (!WebCrawler.is_html_response r2) = true then none
            else some r2) = some r ↔ _
      by_cases hs : r2.status = 200
      · rw [if_neg (by simp [hs])]
        by_cases hr : WebCrawler.is_html_response r2 = true
        · rw [if_neg (by simp [hr])]
          constructor
          · intro h
            obtain heq := Option.some_inj.1 h
            subst heq
            exact ⟨hu, rfl, hs, hr⟩
          · rintro ⟨_, h1, _, _⟩
            exact h1
        · rw [if_pos (by simp [hr])]
          constructor
          · intro h; cases h
          · rintro ⟨_, h1, _, h3⟩
            obtain heq := Option.some_inj.1 h1
            subst heq
            exact absurd h3 hr
      · rw [if_pos (by simpa using hs)]
        constructor
        · intro h; cases h
        · rintro ⟨_, h1, h2, _⟩
          obtain heq := Option.some_inj.1 h1
          subst heq
          exact absurd h2 hs
  · rw [if_pos (by simp [hu])]
    constructor
    · intro h; cases h
    · rintro ⟨h1, _, _, _⟩
      exact absurd h1 hu

/-- C7: against a fixture whose robots.txt lists a non-empty sitemap set
and whose sitemap fetches all succeed, `get_internal_links` with limit
`k` returns exactly `min N k` links, where `N` counts the qualifying
(same-prefix, HTML-like) `<loc>` entries; every returned link is
same-prefix with the base URL and HTML-like, so non-HTML and
out-of-origin entries never appear. -/
theorem claim_C7 (env : Env) (base_url : String) (k : Nat) (fuel : Nat)
    (sms : List String)
    (h1 : WebCrawler.get_sitemap env base_url = some sms) (h2 : sms ≠ [])
    (h3 : ∀ sm ∈ sms, ∃ r, env.http sm = some r ∧ r.status < 400) :
    (WebCrawler.get_internal_links env base_url (some k) fuel).length
      = min (WebCrawler.sitemap_total env base_url sms) k ∧
    ∀ link ∈ WebCrawler.get_internal_links env base_url (some k) fuel,
      PyStr.starts link base_url = true ∧ WebCrawler.is_html_url link = true := by
  obtain ⟨l, hl, hlen, hmem⟩ :=
    sitemap_collect_length env base_url k sms [] h3 (by simp)
  have hs : WebCrawler.get_internal_links_using_sitemap env base_url (some k)
      = some l := by
    simp only [WebCrawler.get_internal_links_using_sitemap, h1]
    rw [if_neg (by simpa using h2)]
    exact hl
  have hg : WebCrawler.get_internal_links env base_url (some k) fuel = l := by
    simp [WebCrawler.get_internal_links, hs]
  rw [hg]
  refine ⟨by simpa using hlen, ?_⟩
  intro link hlink
  rcases hmem link hlink with h | h
  · exact absurd h (List.not_mem_nil _)
  · exact h

/-- Witness for C7 at the mixed fixture (two qualifying entries, one
non-HTML, one out-of-origin) with limit 1. -/
theorem claim_C7_witness :
    WebCrawler.get_sitemap env7 "http://x.com" = some ["http://x.com/sm.xml"] ∧
    WebCrawler.sitemap_total env7 "http://x.com" ["http://x.com/sm.xml"] = 2 ∧
    ((WebCrawler.get_internal_links env7 "http://x.com" (some 1) 5).length
        = min (WebCrawler.sitemap_total env7 "http://x.com" ["http://x.com/sm.xml"]) 1 ∧
      ∀ link ∈ WebCrawler.get_internal_links env7 "http://x.com" (some 1) 5,
        PyStr.starts link "http://x.com" = true ∧
          WebCrawler.is_html_url link = true) :=
  ⟨by decide, by decide,
    claim_C7 env7 "http://x.com" 1 5 ["http://x.com/sm.xml"] (by decide)
      (by decide)
      (by
        intro sm hsm
        rw [List.mem_singleton] at hsm
        subst hsm
        exact ⟨⟨200, "text/xml",
          "<loc>http://x.com/p1/</loc>\n<loc>http://x.com/a.pdf</loc>\n<loc>http://other.com/b/</loc>\n<loc>http://x.com/p2/</loc>",
          []⟩, by decide, by decide⟩)⟩

/-- C8 (counterexample to the claim as stated): with limit `None` and a
base page that links to itself, the base URL is fetched and expanded
twice in one run — once by `recursive_crawl` and once by
`recursive_crawl_aux` on the collected seed — so the fragment-stripped
fetch trace has a duplicate. -/
theorem claim_C8_counterexample :
    (WebCrawler.recursive_crawl env8 "http://x.com/" none 5).fetched
      = ["http://x.com/", "http://x.com/"] ∧
    ¬ (((WebCrawler.recursive_crawl env8 "http://x.com/" none 5).fetched.map
        stripFragment).Nodup) := by
  exact ⟨by decide, by decide⟩

/-- C8 (amended): in every run of the fallback crawl, every collected
URL and every fetched-and-expanded URL has the base URL's netloc, and
the collected link list is duplicate-free — each *collected* URL is
expanded at most once; however the base URL itself (or a fragment
variant collected as a seed) may be fetched a second time, as the
counterexample shows. -/
theorem claim_C8 (env : Env) (base_url : String) (limit : Option Nat)
    (fuel : Nat) :
    (∀ u ∈ (WebCrawler.recursive_crawl env base_url limit fuel).internal_links,
      urlNetloc u = urlNetloc base_url) ∧
    (WebCrawler.recursive_crawl env base_url limit fuel).internal_links.Nodup ∧
    (∀ u ∈ (WebCrawler.recursive_crawl env base_url limit fuel).fetched,
      urlNetloc u = urlNetloc base_url) :=
  recursive_crawl_inv env base_url limit fuel

/-- C10: with the limit omitted (`None`, the endpoint's default), the
sitemap scan's limit check never fires: discovery returns *every*
qualifying entry of every sitemap — as many links as the sitemaps
qualify, with no cap — and the `[:None]` slice is the identity, so
nothing truncates the result. -/
theorem claim_C10 (env : Env) (base_url : String) (fuel : Nat)
    (sms : List String)
    (h1 : WebCrawler.get_sitemap env base_url = some sms) (h2 : sms ≠ [])
    (h3 : ∀ sm ∈ sms, ∃ r, env.http sm = some r ∧ r.status < 400) :
    WebCrawler.get_internal_links_using_sitemap env base_url none
      = some (WebCrawler.sitemap_full env base_url sms) ∧
    WebCrawler.get_internal_links env base_url none fuel
      = WebCrawler.sitemap_full env base_url sms ∧
    (WebCrawler.sitemap_full env base_url sms).length
      = WebCrawler.sitemap_total env base_url sms ∧
    ∀ l : List String, WebCrawler.list_slice none l = l := by
  have hcol := sitemap_collect_no_limit env base_url sms [] h3
  have hs : WebCrawler.get_internal_links_using_sitemap env base_url none
      = some (WebCrawler.sitemap_full env base_url sms) := by
    simp only [WebCrawler.get_internal_links_using_sitemap, h1]
    rw [if_neg (by simpa using h2)]
    simpa using hcol
  exact ⟨hs, by simp [WebCrawler.get_internal_links, hs],
    sitemap_full_length env base_url sms, fun l => rfl⟩

/-- Witness for C10: with `max_pages` omitted both qualifying entries of
the fixture are returned, uncapped. -/
theorem claim_C10_witness :
    WebCrawler.get_sitemap env7 "http://x.com" = some ["http://x.com/sm.xml"] ∧
    WebCrawler.sitemap_full env7 "http://x.com" ["http://x.com/sm.xml"]
      = ["http://x.com/p1/", "http://x.com/p2/"] ∧
    (WebCrawler.get_internal_links_using_sitemap env7 "http://x.com" none
        = some (WebCrawler.sitemap_full env7 "http://x.com" ["http://x.com/sm.xml"]) ∧
      WebCrawler.get_internal_links env7 "http://x.com" none 5
        = WebCrawler.sitemap_full env7 "http://x.com" ["http://x.com/sm.xml"] ∧
      (WebCrawler.sitemap_full env7 "http://x.com" ["http://x.com/sm.xml"]).length
        = WebCrawler.sitemap_total env7 "http://x.com" ["http://x.com/sm.xml"] ∧
      ∀ l : List String, WebCrawler.list_slice none l = l) :=
  ⟨by decide, by decide,
    claim_C10 env7 "http://x.com" 5 ["http://x.com/sm.xml"] (by decide)
      (by decide)
      (by
        intro sm hsm
        rw [List.mem_singleton] at hsm
        subst hsm
        exact ⟨⟨200, "text/xml",
          "<loc>http://x.com/p1/</loc>\n<loc>http://x.com/a.pdf</loc>\n<loc>http://other.com/b/</loc>\n<loc>http://x.com/p2/</loc>",
          []⟩, by decide, by decide⟩)⟩

/-- C2: against an unchanged site (same world), with the ledger
reachable and the embedder healthy, if the first run returned a success
summary then the second run — reading the ledger the first run left —
returns the zero-page zero-chunk success, issues no vector-store upsert,
never reaches the ledger insert, and leaves the ledger unchanged. -/
theorem claim_C2 (env : Env) (ledger : List LedgerRow) (url : String)
    (max_pages : Option Nat) (fuel : Nat)
    (hdb : env.ledgerFetchOk = true)
    (hemb : ∀ u, env.embedOk u = true)
    (h1 : (Ingest.ingest_site env ledger url max_pages fuel).result.isSome = true) :
    (Ingest.ingest_site env
        (Ingest.ingest_site env ledger url max_pages fuel).finalLedger
        url max_pages fuel).result = some (url, 0, 0) ∧
    (Ingest.ingest_site env
        (Ingest.ingest_site env ledger url max_pages fuel).finalLedger
        url max_pages fuel).upsertPayload = none ∧
    (Ingest.ingest_site env
        (Ingest.ingest_site env ledger url max_pages fuel).finalLedger
        url max_pages fuel).insertAttempted = false ∧
    (Ingest.ingest_site env
        (Ingest.ingest_site env ledger url max_pages fuel).finalLedger
        url max_pages fuel).finalLedger
      = (Ingest.ingest_site env ledger url max_pages fuel).finalLedger := by
  cases hc : Ingest.convert_site_to_chunks env url max_pages
      (Ingest.get_ingested_urls env ledger url) fuel with
  | none =>
    have hfl : (Ingest.ingest_site env ledger url max_pages fuel).finalLedger
        = ledger := by simp [Ingest.ingest_site, hc]
    rw [hfl]
    refine ⟨?_, ?_, ?_, ?_⟩ <;> simp [Ingest.ingest_site, hc, hfl]
  | some chunked =>
    obtain ⟨pages, hg, hpe, hck⟩ := convert_some env url max_pages _ fuel chunked hc
    have hproc := process_pages_all_ok env url
      (Ingest.get_ingested_urls env ledger url) chunked
      (fun p _ => hemb p.source_url)
    have hne : chunked.isEmpty = false := by
      rw [hck]
      cases pages with
      | nil => simp at hpe
      | cons a t => rfl
    cases hu : env.upsertOk with
    | false =>
      exfalso
      simp [Ingest.ingest_site, hc, hne, hu, VectorDB.upsert_vectors] at h1
    | true =>
      cases hi : env.insertOk with
      | false =>
        exfalso
        simp [Ingest.ingest_site, hc, hne, hu, hi, VectorDB.upsert_vectors,
          PostgresDB.insert] at h1
      | true =>
        have hfl : (Ingest.ingest_site env ledger url max_pages fuel).finalLedger
            = ledger ++ chunked.map (Ingest.page_row url) := by
          simp [Ingest.ingest_site, hc, hne, hu, hi, hproc,
            VectorDB.upsert_vectors, PostgresDB.insert]
        have hing2 : Ingest.get_ingested_urls env
            (ledger ++ chunked.map (Ingest.page_row url)) url
            = Ingest.get_ingested_urls env ledger url
              ++ chunked.map (fun p => p.source_url) := by
          rw [get_ingested_urls_append env hdb, page_row_filter]
        have hsec : WebCrawler.get_website_content env url
            Ingest.default_exclude_tags max_pages
            (Ingest.get_ingested_urls env ledger url
              ++ chunked.map (fun p => p.source_url)) fuel = some [] := by
          obtain ⟨hl, hpg⟩ := gwc_some env url _ max_pages _ fuel pages hg
          apply gwc_excluded_all env url _ max_pages _ fuel hl
          intro link hlink
          by_cases hex : (Ingest.get_ingested_urls env ledger url).any
              (fun e => str_contains link e) = true
          · rw [if_pos (by simp [List.any_append, hex])]
          · cases hf : WebCrawler.fetch_html env link with
            | none =>
              split
              · rfl
              · rfl
            | some r =>
              have hpmem : (⟨env.cleanHtml Ingest.default_exclude_tags r.text,
                  link⟩ : WebCrawler.Page) ∈ pages := by
                rw [hpg]
                apply List.mem_filterMap.2
                refine ⟨link, hlink, ?_⟩
                rw [if_neg hex, hf]
              have hsrc : link ∈ chunked.map (fun p => p.source_url) := by
                rw [hck]
                simp only [List.map_map]
                exact List.mem_map.2 ⟨_, hpmem, rfl⟩
              rw [if_pos (List.any_eq_true.2
                ⟨link, List.mem_append_right _ hsrc, str_contains_self link⟩)]
        have hc2 : Ingest.convert_site_to_chunks env url max_pages
            (Ingest.get_ingested_urls env
              (ledger ++ chunked.map (Ingest.page_row url)) url) fuel = none := by
          rw [hing2]
          simp [Ingest.convert_site_to_chunks, hsec]
        rw [hfl]
        refine ⟨?_, ?_, ?_, ?_⟩ <;> simp [Ingest.ingest_site, hc2]

/-- Witness for C2: the healthy three-page world; the first run succeeds
and ledgers all three pages, the second run is the zero success and
leaves the ledger as the first run wrote it. -/
theorem claim_C2_witness :
    env2.ledgerFetchOk = true ∧
    (∀ u, env2.embedOk u = true) ∧
    (Ingest.ingest_site env2 [] "http://x.com" none 5).result.isSome = true ∧
    ((Ingest.ingest_site env2
        (Ingest.ingest_site env2 [] "http://x.com" none 5).finalLedger
        "http://x.com" none 5).result = some ("http://x.com", 0, 0) ∧
     (Ingest.ingest_site env2
        (Ingest.ingest_site env2 [] "http://x.com" none 5).finalLedger
        "http://x.com" none 5).upsertPayload = none ∧
     (Ingest.ingest_site env2
        (Ingest.ingest_site env2 [] "http://x.com" none 5).finalLedger
        "http://x.com" none 5).insertAttempted = false ∧
     (Ingest.ingest_site env2
        (Ingest.ingest_site env2 [] "http://x.com" none 5).finalLedger
        "http://x.com" none 5).finalLedger
       = (Ingest.ingest_site env2 [] "http://x.com" none 5).finalLedger) :=
  ⟨rfl, fun u => rfl, by decide,
    claim_C2 env2 [] "http://x.com" none 5 rfl (fun u => rfl) (by decide)⟩
